import Mathlib

/-!
Shallow embedding of the blueprint overlay-stack hook (`useOverlayStack` in
`useOverlayStack.tsx`) and of the `OverlayToaster` component
(`overlayToaster.tsx`), together with proofs about the documented behaviour
of both state managers.

The overlay stack is a list of open overlay instances plus the body-level
scroll-lock CSS class (`Classes.OVERLAY_OPEN`), modelled as a boolean flag.
The toaster is a list of toast options (newest first) plus the
auto-incrementing `toastId` counter; invocations of `onDismiss` callbacks
are observed in an event log.
-/

namespace Blueprint

/-- Props of an overlay instance that the stack manager inspects
(`overlay.props.usePortal`, `overlay.props.hasBackdrop`). -/
structure OverlayProps where
  usePortal : Bool
  hasBackdrop : Bool
deriving DecidableEq

/-- An overlay instance: an id together with its props. -/
structure OverlayInstance where
  id : String
  props : OverlayProps
deriving DecidableEq

/-- State touched by the overlay stack hook: the global stack (`stack.current`)
and whether `document.body` carries the `Classes.OVERLAY_OPEN` class. -/
structure OverlayStackState where
  stack : List OverlayInstance
  overlayOpen : Bool
deriving DecidableEq

/-- The initial state: empty stack, no scroll lock. -/
def initialOverlayState : OverlayStackState :=
  { stack := [], overlayOpen := false }

/-- `openOverlay`: pushes the overlay onto the stack and, when it uses a
portal and has a backdrop, adds the scroll-lock class to the body. -/
def openOverlay (overlay : OverlayInstance) (s : OverlayStackState) : OverlayStackState :=
  { stack := s.stack ++ [overlay],
    overlayOpen :=
      if overlay.props.usePortal && overlay.props.hasBackdrop then true
      else s.overlayOpen }

/-- `closeOverlay`: computes the other overlays with a backdrop, removes the
first entry with a matching id via `findIndex`/`splice`, and removes the
scroll-lock class when no other backdrop overlay was on the stack. -/
def closeOverlay (overlay : OverlayInstance) (s : OverlayStackState) : OverlayStackState :=
  let otherOverlaysWithBackdrop := s.stack.filter
    (fun o => o.props.usePortal && o.props.hasBackdrop && o.id != overlay.id)
  let stack' :=
    match s.stack.findIdx? (fun o => o.id == overlay.id) with
    | some index => s.stack.eraseIdx index
    | none => s.stack
  { stack := stack',
    overlayOpen := if otherOverlaysWithBackdrop.length = 0 then false else s.overlayOpen }

/-- `getLastOpened`: `stack.current.at(-1)`, the last element of the stack. -/
def getLastOpened (s : OverlayStackState) : Option OverlayInstance :=
  s.stack.getLast?

/-- `getThisOverlayAndDescendants`: `findIndex` of the overlay's id, the empty
list when it is `-1`, otherwise `slice(index)` (the suffix from that index). -/
def getThisOverlayAndDescendants (overlay : OverlayInstance) (s : OverlayStackState) :
    List OverlayInstance :=
  match s.stack.findIdx? (fun o => o.id == overlay.id) with
  | none => []
  | some index => s.stack.drop index

/-- `resetStack`: empties the stack; the body class is not touched. -/
def resetStack (s : OverlayStackState) : OverlayStackState :=
  { s with stack := [] }

/-- One call to the overlay stack API. -/
inductive OverlayOp where
  | openOv (overlay : OverlayInstance)
  | closeOv (overlay : OverlayInstance)
  | reset
deriving DecidableEq

/-- Apply one overlay stack call to the state. -/
def applyOverlayOp (s : OverlayStackState) : OverlayOp → OverlayStackState
  | .openOv o => openOverlay o s
  | .closeOv o => closeOverlay o s
  | .reset => resetStack s

/-- Run a sequence of overlay stack calls. -/
def runOverlayOps (s : OverlayStackState) (ops : List OverlayOp) : OverlayStackState :=
  ops.foldl applyOverlayOp s

/-- Whether some overlay in the list uses a portal and has a backdrop. -/
def hasBackdropOverlay (l : List OverlayInstance) : Bool :=
  l.any (fun o => o.props.usePortal && o.props.hasBackdrop)

/-- A concrete overlay with a backdrop, used in concrete executions. -/
def backdropOverlay : OverlayInstance :=
  { id := "overlay-1", props := { usePortal := true, hasBackdrop := true } }

/-- A concrete overlay without a backdrop, used in concrete executions. -/
def plainOverlay : OverlayInstance :=
  { id := "overlay-2", props := { usePortal := true, hasBackdrop := false } }

/-- Decomposition of a list at the first index where `p` holds. -/
theorem findIdx?_decomp {α : Type} (p : α → Bool) (l : List α) :
    ∀ i : Nat, l.findIdx? p = some i →
      ∃ l1 x l2, l = l1 ++ x :: l2 ∧ i = l1.length ∧ p x = true ∧ ∀ y ∈ l1, p y = false := by
  induction l with
  | nil => intro i h; simp at h
  | cons a t ih =>
    intro i h
    rw [List.findIdx?_cons] at h
    by_cases hp : p a
    · rw [if_pos hp] at h
      refine ⟨[], a, t, by simp, ?_, hp, by simp⟩
      simpa using (Option.some.inj h).symm
    · rw [if_neg hp] at h
      rw [List.findIdx?_start_succ] at h
      obtain ⟨j, hj, hij⟩ := Option.map_eq_some'.mp h
      obtain ⟨l1, x, l2, ht, hjlen, hx, hl1⟩ := ih j hj
      subst ht
      refine ⟨a :: l1, x, l2, rfl, ?_, hx, ?_⟩
      · simp only [List.length_cons]
        omega
      · intro y hy
        rcases List.mem_cons.mp hy with rfl | hy
        · simpa using hp
        · exact hl1 y hy

/-- Erasing at the index of the distinguished middle element removes it. -/
theorem eraseIdx_append_cons {α : Type} (l1 : List α) (x : α) (l2 : List α) :
    (l1 ++ x :: l2).eraseIdx l1.length = l1 ++ l2 := by
  induction l1 with
  | nil => rfl
  | cons a t ih => simp [ih]

/-- Dropping up to the distinguished middle element keeps the suffix. -/
theorem drop_append_cons {α : Type} (l1 : List α) (x : α) (l2 : List α) :
    (l1 ++ x :: l2).drop l1.length = x :: l2 := by
  induction l1 with
  | nil => rfl
  | cons a t ih => simp [ih]

/-- Scroll-lock and uniqueness invariant of the overlay stack state: the body
class is present exactly when a backdrop overlay is open, and ids are unique. -/
def OverlayInv (s : OverlayStackState) : Prop :=
  s.overlayOpen = hasBackdropOverlay s.stack ∧ (s.stack.map OverlayInstance.id).Nodup

theorem overlayInv_initial : OverlayInv initialOverlayState := by
  constructor <;> simp [initialOverlayState, hasBackdropOverlay]

theorem closeOverlay_stack_none (o : OverlayInstance) (s : OverlayStackState)
    (h : s.stack.findIdx? (fun x => x.id == o.id) = none) :
    (closeOverlay o s).stack = s.stack := by
  simp [closeOverlay, h]

theorem closeOverlay_stack_some (o : OverlayInstance) (s : OverlayStackState) (i : Nat)
    (h : s.stack.findIdx? (fun x => x.id == o.id) = some i) :
    (closeOverlay o s).stack = s.stack.eraseIdx i := by
  simp [closeOverlay, h]

theorem closeOverlay_flag_clear (o : OverlayInstance) (s : OverlayStackState)
    (h : (s.stack.filter
      (fun x => x.props.usePortal && x.props.hasBackdrop && x.id != o.id)).length = 0) :
    (closeOverlay o s).overlayOpen = false := by
  simp [closeOverlay, h]

theorem closeOverlay_flag_keep (o : OverlayInstance) (s : OverlayStackState)
    (h : (s.stack.filter
      (fun x => x.props.usePortal && x.props.hasBackdrop && x.id != o.id)).length ≠ 0) :
    (closeOverlay o s).overlayOpen = s.overlayOpen := by
  simp [closeOverlay, h]

theorem openOverlay_nodup (o : OverlayInstance) (s : OverlayStackState)
    (hnodup : (s.stack.map OverlayInstance.id).Nodup)
    (hfresh : ∀ x ∈ s.stack, x.id ≠ o.id) :
    ((openOverlay o s).stack.map OverlayInstance.id).Nodup := by
  simp only [openOverlay, List.map_append, List.map_cons, List.map_nil]
  rw [List.nodup_append_comm]
  simp only [List.singleton_append, List.nodup_cons]
  refine ⟨?_, hnodup⟩
  intro hmem
  obtain ⟨x, hx, hxid⟩ := List.mem_map.mp hmem
  exact hfresh x hx hxid

theorem openOverlay_inv (o : OverlayInstance) (s : OverlayStackState)
    (hinv : OverlayInv s) (hfresh : ∀ x ∈ s.stack, x.id ≠ o.id) :
    OverlayInv (openOverlay o s) := by
  obtain ⟨hflag, hnodup⟩ := hinv
  refine ⟨?_, openOverlay_nodup o s hnodup hfresh⟩
  by_cases hb : o.props.usePortal && o.props.hasBackdrop
  · simp [openOverlay, hb, hasBackdropOverlay, List.any_append]
  · simp only [openOverlay, if_neg hb, hasBackdropOverlay, List.any_append]
    simp only [hasBackdropOverlay] at hflag
    simp [hflag, hb]

/-- Characterization of the stack after `closeOverlay`: either no entry
matched and it is unchanged, or the first matching entry was removed. -/
theorem closeOverlay_stack_cases (o : OverlayInstance) (s : OverlayStackState) :
    (closeOverlay o s).stack = s.stack ∨
      ∃ l1 x l2, s.stack = l1 ++ x :: l2 ∧ x.id = o.id ∧
        (∀ y ∈ l1, y.id ≠ o.id) ∧ (closeOverlay o s).stack = l1 ++ l2 := by
  match hfind : s.stack.findIdx? (fun x => x.id == o.id) with
  | none => exact Or.inl (closeOverlay_stack_none o s hfind)
  | some i =>
    obtain ⟨l1, x, l2, hdec, hlen, hx, hl1⟩ :=
      findIdx?_decomp (fun x => x.id == o.id) s.stack i hfind
    refine Or.inr ⟨l1, x, l2, hdec, by simpa using hx, ?_, ?_⟩
    · intro y hy
      simpa using hl1 y hy
    · rw [closeOverlay_stack_some o s i hfind, hdec, hlen, eraseIdx_append_cons]

theorem closeOverlay_nodup (o : OverlayInstance) (s : OverlayStackState)
    (hnodup : (s.stack.map OverlayInstance.id).Nodup) :
    ((closeOverlay o s).stack.map OverlayInstance.id).Nodup := by
  rcases closeOverlay_stack_cases o s with h | ⟨l1, x, l2, hdec, _, _, h⟩
  · rwa [h]
  · rw [h]
    have hsub : List.Sublist (l1 ++ l2) (l1 ++ x :: l2) :=
      (List.sublist_cons_self x l2).append_left l1
    exact (hsub.map OverlayInstance.id).nodup (hdec ▸ hnodup)

theorem closeOverlay_inv (o : OverlayInstance) (s : OverlayStackState)
    (hinv : OverlayInv s) : OverlayInv (closeOverlay o s) := by
  obtain ⟨hflag, hnodup⟩ := hinv
  have hstack' := closeOverlay_stack_cases o s
  have hsubset : ∀ y ∈ (closeOverlay o s).stack, y ∈ s.stack := by
    rcases hstack' with h | ⟨l1, x, l2, hdec, _, _, h⟩
    · intro y hy; rwa [h] at hy
    · intro y hy
      rw [h] at hy
      rw [hdec]
      rcases List.mem_append.mp hy with h1 | h2
      · exact List.mem_append.mpr (Or.inl h1)
      · exact List.mem_append.mpr (Or.inr (List.mem_cons_of_mem x h2))
  have hnodup' : ((closeOverlay o s).stack.map OverlayInstance.id).Nodup :=
    closeOverlay_nodup o s hnodup
  have hmatched : ∀ y ∈ (closeOverlay o s).stack, y.id = o.id → False := by
    intro y hy hyid
    rcases hstack' with h | ⟨l1, x, l2, hdec, hxid, _, h⟩
    · have hymem : y ∈ s.stack := by rwa [h] at hy
      match hfind : s.stack.findIdx? (fun x => x.id == o.id) with
      | none =>
        have := List.findIdx?_eq_none_iff.mp hfind y hymem
        simp [hyid] at this
      | some i =>
        obtain ⟨l1, x, l2, hdec, hlen, hx, _⟩ :=
          findIdx?_decomp (fun x => x.id == o.id) s.stack i hfind
        have hxid : x.id = o.id := by simpa using hx
        have hclose : (closeOverlay o s).stack = l1 ++ l2 := by
          rw [closeOverlay_stack_some o s i hfind, hdec, hlen, eraseIdx_append_cons]
        have hmid : x.id ∉ (l1 ++ l2).map OverlayInstance.id := by
          have hnd : ((l1 ++ x :: l2).map OverlayInstance.id).Nodup := hdec ▸ hnodup
          rw [List.map_append, List.map_cons, List.nodup_middle] at hnd
          rw [List.map_append]
          exact (List.nodup_cons.mp hnd).1
        have hin : y.id ∈ (l1 ++ l2).map OverlayInstance.id := by
          rw [← hclose]
          exact List.mem_map_of_mem _ hy
        rw [hyid, ← hxid] at hin
        exact hmid hin
    · have hmid : x.id ∉ (l1 ++ l2).map OverlayInstance.id := by
        have hnd : ((l1 ++ x :: l2).map OverlayInstance.id).Nodup := hdec ▸ hnodup
        rw [List.map_append, List.map_cons, List.nodup_middle] at hnd
        rw [List.map_append]
        exact (List.nodup_cons.mp hnd).1
      have hin : y.id ∈ (l1 ++ l2).map OverlayInstance.id := by
        rw [← h]
        exact List.mem_map_of_mem _ hy
      rw [hyid, ← hxid] at hin
      exact hmid hin
  refine ⟨?_, hnodup'⟩
  by_cases hfe : (s.stack.filter
      (fun x => x.props.usePortal && x.props.hasBackdrop && x.id != o.id)).length = 0
  · rw [closeOverlay_flag_clear o s hfe]
    have hnone : ∀ y ∈ (closeOverlay o s).stack,
        (y.props.usePortal && y.props.hasBackdrop) = false := by
      intro y hy
      have hymem : y ∈ s.stack := hsubset y hy
      have hq := List.filter_eq_nil_iff.mp (List.length_eq_zero.mp hfe) y hymem
      by_contra hbp
      have hbp' : (y.props.usePortal && y.props.hasBackdrop) = true := by simpa using hbp
      have hyid : y.id = o.id := by
        by_contra hne
        exact hq (by simp [hbp', hne])
      exact hmatched y hy hyid
    have : hasBackdropOverlay (closeOverlay o s).stack = false := by
      simp only [hasBackdropOverlay, List.any_eq_false]
      intro y hy
      simpa using hnone y hy
    exact this.symm
  · rw [closeOverlay_flag_keep o s hfe]
    obtain ⟨y, hymem, hyq⟩ : ∃ y ∈ s.stack,
        (y.props.usePortal && y.props.hasBackdrop && y.id != o.id) = true := by
      rcases List.exists_mem_of_length_pos (Nat.pos_of_ne_zero hfe) with ⟨y, hy⟩
      exact ⟨y, (List.mem_filter.mp hy).1, (List.mem_filter.mp hy).2⟩
    have hybp : (y.props.usePortal && y.props.hasBackdrop) = true :=
      (Bool.and_eq_true_iff.mp hyq).1
    have hyid : y.id ≠ o.id := by
      have := (Bool.and_eq_true_iff.mp hyq).2
      simpa using this
    have hymem' : y ∈ (closeOverlay o s).stack := by
      rcases hstack' with h | ⟨l1, x, l2, hdec, hxid, _, h⟩
      · rwa [h]
      · rw [h]
        rw [hdec] at hymem
        rcases List.mem_append.mp hymem with h1 | h2
        · exact List.mem_append.mpr (Or.inl h1)
        · rcases List.mem_cons.mp h2 with rfl | h3
          · exact absurd hxid hyid
          · exact List.mem_append.mpr (Or.inr h3)
    have hany : hasBackdropOverlay (closeOverlay o s).stack = true := by
      simp only [hasBackdropOverlay, List.any_eq_true]
      exact ⟨y, hymem', by simpa using hybp⟩
    have hflagtrue : s.overlayOpen = true := by
      rw [hflag]
      simp only [hasBackdropOverlay, List.any_eq_true]
      exact ⟨y, hymem, by simpa using hybp⟩
    rw [hflagtrue, hany]

/-- Valid traces of the overlay stack API for the scroll-lock invariant:
`resetStack` is not used and every `openOverlay` call pushes an id that is
not currently on the stack. -/
def overlayOpsSound : OverlayStackState → List OverlayOp → Prop
  | _, [] => True
  | s, OverlayOp.openOv o :: rest =>
      (∀ x ∈ s.stack, x.id ≠ o.id) ∧ overlayOpsSound (openOverlay o s) rest
  | s, OverlayOp.closeOv o :: rest => overlayOpsSound (closeOverlay o s) rest
  | _, OverlayOp.reset :: _ => False

/-- Traces of the overlay stack API in which every `openOverlay` call pushes
an id that is not currently on the stack; `resetStack` is allowed. -/
def overlayOpsFresh : OverlayStackState → List OverlayOp → Prop
  | _, [] => True
  | s, OverlayOp.openOv o :: rest =>
      (∀ x ∈ s.stack, x.id ≠ o.id) ∧ overlayOpsFresh (openOverlay o s) rest
  | s, OverlayOp.closeOv o :: rest => overlayOpsFresh (closeOverlay o s) rest
  | s, OverlayOp.reset :: rest => overlayOpsFresh (resetStack s) rest

theorem overlayInv_run (ops : List OverlayOp) :
    ∀ s : OverlayStackState, OverlayInv s → overlayOpsSound s ops →
      OverlayInv (runOverlayOps s ops) := by
  induction ops with
  | nil => intro s hinv _; exact hinv
  | cons op rest ih =>
    intro s hinv hops
    match op with
    | .openOv o =>
      obtain ⟨hfresh, hrest⟩ := hops
      exact ih (openOverlay o s) (openOverlay_inv o s hinv hfresh) hrest
    | .closeOv o =>
      exact ih (closeOverlay o s) (closeOverlay_inv o s hinv) hops
    | .reset => exact absurd hops (by simp [overlayOpsSound])

theorem overlayNodup_run (ops : List OverlayOp) :
    ∀ s : OverlayStackState, (s.stack.map OverlayInstance.id).Nodup →
      overlayOpsFresh s ops →
      ((runOverlayOps s ops).stack.map OverlayInstance.id).Nodup := by
  induction ops with
  | nil => intro s h _; exact h
  | cons op rest ih =>
    intro s h hops
    match op with
    | .openOv o =>
      obtain ⟨hfresh, hrest⟩ := hops
      exact ih (openOverlay o s) (openOverlay_nodup o s h hfresh) hrest
    | .closeOv o => exact ih (closeOverlay o s) (closeOverlay_nodup o s h) hops
    | .reset => exact ih (resetStack s) (by simp [resetStack]) hops

/-- Claim C1, counterexample: opening a backdrop overlay and then calling
`resetStack` leaves the scroll-lock class on the body although no overlay is
on the stack, so the claimed equivalence fails for this call sequence. -/
theorem scrollLock_reset_counterexample :
    ((runOverlayOps initialOverlayState [.openOv backdropOverlay, .reset]).overlayOpen = true) ∧
      hasBackdropOverlay
        (runOverlayOps initialOverlayState [.openOv backdropOverlay, .reset]).stack = false := by
  constructor <;> decide

/-- Claim C1, amended: for every sequence of `openOverlay` and `closeOverlay`
calls starting from the empty state in which each `openOverlay` pushes an id
not currently on the stack (`resetStack` excluded, since it clears the stack
without updating the body class), the scroll-lock flag is set iff at least
one overlay on the stack has both `usePortal` and `hasBackdrop`. -/
theorem scrollLock_iff_backdropOverlay (ops : List OverlayOp)
    (hops : overlayOpsSound initialOverlayState ops) :
    (runOverlayOps initialOverlayState ops).overlayOpen =
      hasBackdropOverlay (runOverlayOps initialOverlayState ops).stack :=
  (overlayInv_run ops initialOverlayState overlayInv_initial hops).1

/-- Witness for the amended claim C1 at a concrete open/close sequence. -/
theorem scrollLock_iff_backdropOverlay_witness :
    overlayOpsSound initialOverlayState
        [.openOv backdropOverlay, .closeOv backdropOverlay, .openOv plainOverlay] ∧
      (runOverlayOps initialOverlayState
          [.openOv backdropOverlay, .closeOv backdropOverlay, .openOv plainOverlay]).overlayOpen =
        hasBackdropOverlay (runOverlayOps initialOverlayState
          [.openOv backdropOverlay, .closeOv backdropOverlay, .openOv plainOverlay]).stack := by
  have hops : overlayOpsSound initialOverlayState
      [.openOv backdropOverlay, .closeOv backdropOverlay, .openOv plainOverlay] := by
    simp only [overlayOpsSound]
    refine ⟨by decide, by decide, trivial⟩
  exact ⟨hops, scrollLock_iff_backdropOverlay _ hops⟩

/-- Claim C7: closing an overlay whose id matches no stack entry leaves the
stack unchanged, and `getThisOverlayAndDescendants` returns the empty list.
Both operations are total functions of the embedding, so neither throws. -/
theorem unknown_id_noop (o : OverlayInstance) (s : OverlayStackState)
    (h : ∀ x ∈ s.stack, x.id ≠ o.id) :
    (closeOverlay o s).stack = s.stack ∧ getThisOverlayAndDescendants o s = [] := by
  have hfind : s.stack.findIdx? (fun x => x.id == o.id) = none :=
    List.findIdx?_eq_none_iff.mpr (fun x hx => by simpa using h x hx)
  exact ⟨closeOverlay_stack_none o s hfind, by simp [getThisOverlayAndDescendants, hfind]⟩

/-- Witness for claim C7 at a concrete state not containing the id. -/
theorem unknown_id_noop_witness :
    (∀ x ∈ (⟨[plainOverlay], false⟩ : OverlayStackState).stack,
        x.id ≠ backdropOverlay.id) ∧
      ((closeOverlay backdropOverlay ⟨[plainOverlay], false⟩).stack = [plainOverlay] ∧
        getThisOverlayAndDescendants backdropOverlay ⟨[plainOverlay], false⟩ = []) :=
  ⟨by decide, unknown_id_noop backdropOverlay ⟨[plainOverlay], false⟩ (by decide)⟩

/-- Claim C8: when some stack entry has the overlay's id,
`getThisOverlayAndDescendants` returns exactly the suffix of the stack
starting at the first entry whose id matches; the stack is not modified
(the operation is a pure read of the state in the embedding). -/
theorem getThisOverlayAndDescendants_suffix (o : OverlayInstance) (s : OverlayStackState)
    (h : ∃ x ∈ s.stack, x.id = o.id) :
    ∃ l1 x l2, s.stack = l1 ++ x :: l2 ∧ x.id = o.id ∧ (∀ y ∈ l1, y.id ≠ o.id) ∧
      getThisOverlayAndDescendants o s = x :: l2 := by
  obtain ⟨x0, hx0, hid0⟩ := h
  have hex : ∃ y, y ∈ s.stack ∧ (y.id == o.id) = true := ⟨x0, hx0, by simpa using hid0⟩
  have hfind := List.findIdx?_eq_some_of_exists hex
  obtain ⟨l1, x, l2, hdec, hlen, hx, hl1⟩ :=
    findIdx?_decomp (fun x => x.id == o.id) s.stack _ hfind
  refine ⟨l1, x, l2, hdec, by simpa using hx, ?_, ?_⟩
  · intro y hy
    simpa using hl1 y hy
  · rw [hdec] at hlen
    simp only [getThisOverlayAndDescendants, hfind]
    rw [hdec, hlen, drop_append_cons]

/-- Witness for claim C8 at a concrete two-element stack. -/
theorem getThisOverlayAndDescendants_suffix_witness :
    (∃ x ∈ (⟨[plainOverlay, backdropOverlay], true⟩ : OverlayStackState).stack,
        x.id = backdropOverlay.id) ∧
      (∃ l1 x l2,
        (⟨[plainOverlay, backdropOverlay], true⟩ : OverlayStackState).stack =
            l1 ++ x :: l2 ∧
          x.id = backdropOverlay.id ∧ (∀ y ∈ l1, y.id ≠ backdropOverlay.id) ∧
          getThisOverlayAndDescendants backdropOverlay
            ⟨[plainOverlay, backdropOverlay], true⟩ = x :: l2) :=
  ⟨⟨backdropOverlay, by decide, rfl⟩,
    getThisOverlayAndDescendants_suffix backdropOverlay _
      ⟨backdropOverlay, by decide, rfl⟩⟩

/-- Display props passed to `show`: whether an `onDismiss` callback is
attached, and an abstract payload standing for the remaining display props. -/
structure ToastProps where
  onDismiss : Bool
  data : Nat
deriving DecidableEq

/-- A queued toast: the resolved `key` plus the props of the toast. -/
structure ToastOptions where
  key : String
  onDismiss : Bool
  data : Nat
deriving DecidableEq

/-- Props of the `OverlayToaster` component relevant to the queue logic. -/
structure OverlayToasterProps where
  maxToasts : Option Int
deriving DecidableEq

/-- State of the toaster: the toast list (newest first), the auto-incrementing
`toastId` counter, and an event log recording each `onDismiss` invocation as
the pair of the toast's key and the `timeoutExpired` argument. The
`toastRefs` of the component are render bookkeeping recomputed from `toasts`
and are not modelled. -/
structure OverlayToasterState where
  toasts : List ToastOptions
  toastId : Nat
  dismissLog : List (String × Bool)
deriving DecidableEq

/-- The state of a freshly constructed toaster. -/
def initialToasterState : OverlayToasterState :=
  { toasts := [], toastId := 0, dismissLog := [] }

/-- Decimal numeral of a natural number, built from its base-10 digits
(most significant first). -/
def decimalStr (n : Nat) : String :=
  if n = 0 then "0" else ((Nat.digits 10 n).reverse.map Nat.digitChar).asString

/-- Key given to an automatically keyed toast: the template literal
`toast-N` with the counter rendered in decimal. -/
def autoToastKey (n : Nat) : String :=
  "toast-" ++ decimalStr n

/-- `validateProps`: a defined `maxToasts` smaller than 1 throws
`TOASTER_MAX_TOASTS_INVALID`; anything else is accepted. -/
def validateProps (props : OverlayToasterProps) : Except String Unit :=
  match props.maxToasts with
  | some m => if m < 1 then .error "TOASTER_MAX_TOASTS_INVALID" else .ok ()
  | none => .ok ()

/-- `dismiss(key, timeoutExpired)`: filters the toast list, invoking the
`onDismiss` callback (when attached) of every matching toast with the given
flag and keeping exactly the non-matching toasts. -/
def dismiss (key : String) (timeoutExpired : Bool) (s : OverlayToasterState) :
    OverlayToasterState :=
  { s with
    toasts := s.toasts.filter (fun t => !(t.key == key)),
    dismissLog := s.dismissLog ++
      (s.toasts.filter (fun t => t.key == key)).filterMap
        (fun t => if t.onDismiss then some (t.key, timeoutExpired) else none) }

/-- `clear()`: invokes every toast's `onDismiss` callback with `false` and
empties the list. -/
def clear (s : OverlayToasterState) : OverlayToasterState :=
  { s with
    toasts := [],
    dismissLog := s.dismissLog ++
      s.toasts.filterMap (fun t => if t.onDismiss then some (t.key, false) else none) }

/-- `isNewToastKey`: every queued toast has a key different from `key`. -/
def isNewToastKey (key : String) (s : OverlayToasterState) : Bool :=
  s.toasts.all (fun toast => toast.key != key)

/-- Truthiness of the `maxToasts` prop (`undefined` and `0` are falsy). -/
def truthyMaxToasts : Option Int → Bool
  | none => false
  | some m => m != 0

/-- `dismissIfAtLimit`: when the number of active toasts equals `maxToasts`,
dismisses the oldest toast (the last element of the list). The empty-list
branch is unreachable under the `validateProps` bound and is a no-op here. -/
def dismissIfAtLimit (props : OverlayToasterProps) (s : OverlayToasterState) :
    OverlayToasterState :=
  if some (s.toasts.length : Int) = props.maxToasts then
    match s.toasts.getLast? with
    | some oldest => dismiss oldest.key false s
    | none => s
  else s

/-- `createToastOptions`: clones the props and attaches the resolved key. -/
def createToastOptions (props : ToastProps) (key : String) : ToastOptions :=
  { key := key, onDismiss := props.onDismiss, data := props.data }

/-- `show(props, key?)` (named `showToast` because `show` is reserved in
Lean): dismisses the oldest toast when the list is at the `maxToasts` limit,
resolves the key (incrementing `toastId` when none is given), then prepends
a new toast when the key is fresh or absent, and otherwise replaces every
toast carrying the key. Returns only the new state; the returned key is
`createToastOptions props key` applied to the resolved key. -/
def showToast (cfg : OverlayToasterProps) (props : ToastProps) (key? : Option String)
    (s : OverlayToasterState) : OverlayToasterState :=
  let s1 := if truthyMaxToasts cfg.maxToasts then dismissIfAtLimit cfg s else s
  let key := key?.getD (autoToastKey s1.toastId)
  let s2 := if key?.isNone then { s1 with toastId := s1.toastId + 1 } else s1
  let options := createToastOptions props key
  let toasts :=
    if key?.isNone || isNewToastKey key s2 then
      options :: s2.toasts
    else
      s2.toasts.map (fun t => if t.key == key then options else t)
  { s2 with toasts := toasts }

/-- One call to the public toaster API. -/
inductive ToasterOp where
  | showCall (props : ToastProps) (key : Option String)
  | dismissCall (key : String) (timeoutExpired : Bool)
  | clearCall
deriving DecidableEq

/-- Apply one toaster call to the state. -/
def applyToasterOp (cfg : OverlayToasterProps) (s : OverlayToasterState) :
    ToasterOp → OverlayToasterState
  | .showCall p k => showToast cfg p k s
  | .dismissCall k te => dismiss k te s
  | .clearCall => clear s

/-- Run a sequence of toaster calls. -/
def runToasterOps (cfg : OverlayToasterProps) (s : OverlayToasterState)
    (ops : List ToasterOp) : OverlayToasterState :=
  ops.foldl (applyToasterOp cfg) s

example :
    (runToasterOps ⟨some 2⟩ initialToasterState
      [.showCall ⟨true, 1⟩ (some "a"), .showCall ⟨true, 2⟩ (some "b"),
        .showCall ⟨true, 3⟩ (some "c")]).toasts =
      [⟨"c", true, 3⟩, ⟨"b", true, 2⟩] := by
  decide

example :
    (runToasterOps ⟨some 2⟩ initialToasterState
      [.showCall ⟨true, 1⟩ (some "a"), .showCall ⟨true, 2⟩ (some "b"),
        .showCall ⟨true, 3⟩ (some "c")]).dismissLog = [("a", false)] := by
  decide

example :
    (runToasterOps ⟨none⟩ initialToasterState
      [.showCall ⟨false, 7⟩ none]).toasts = [⟨"toast-0", false, 7⟩] := by
  decide

theorem digitChar_inj_lt : ∀ a < 10, ∀ b < 10,
    Nat.digitChar a = Nat.digitChar b → a = b := by
  decide

theorem map_digitChar_inj : ∀ l1 l2 : List Nat, (∀ x ∈ l1, x < 10) → (∀ x ∈ l2, x < 10) →
    l1.map Nat.digitChar = l2.map Nat.digitChar → l1 = l2
  | [], [], _, _, _ => rfl
  | [], _ :: _, _, _, h => by simp at h
  | _ :: _, [], _, _, h => by simp at h
  | a :: t1, b :: t2, h1, h2, h => by
    simp only [List.map_cons, List.cons.injEq] at h
    have ha : a < 10 := h1 a (List.mem_cons_self a t1)
    have hb : b < 10 := h2 b (List.mem_cons_self b t2)
    have hab : a = b := digitChar_inj_lt a ha b hb h.1
    have ht : t1 = t2 :=
      map_digitChar_inj t1 t2 (fun x hx => h1 x (List.mem_cons_of_mem a hx))
        (fun x hx => h2 x (List.mem_cons_of_mem b hx)) h.2
    rw [hab, ht]

theorem decimalStr_eq_zero_str (n : Nat) (h : decimalStr n = "0") : n = 0 := by
  by_contra hn
  rw [decimalStr, if_neg hn] at h
  have hlist : (Nat.digits 10 n).reverse.map Nat.digitChar = ['0'] := by
    have := List.asString_eq.mp h
    simpa using this
  have hlen : (Nat.digits 10 n).length = 1 := by
    have := congrArg List.length hlist
    simpa using this
  obtain ⟨d, hd⟩ : ∃ d, Nat.digits 10 n = [d] := by
    match hds : Nat.digits 10 n with
    | [] => rw [hds] at hlen; simp at hlen
    | [d] => exact ⟨d, rfl⟩
    | _ :: _ :: _ => rw [hds] at hlen; simp at hlen
  rw [hd] at hlist
  simp only [List.reverse_singleton, List.map_cons, List.map_nil, List.cons.injEq] at hlist
  have hd10 : d < 10 := Nat.digits_lt_base (by norm_num) (hd ▸ List.mem_cons_self d [])
  have hd0 : d = 0 := digitChar_inj_lt d hd10 0 (by norm_num) (by simpa using hlist.1)
  have := Nat.ofDigits_digits 10 n
  rw [hd, hd0] at this
  simp [Nat.ofDigits] at this
  exact hn this.symm

theorem decimalStr_inj (m n : Nat) (h : decimalStr m = decimalStr n) : m = n := by
  by_cases hm : m = 0 <;> by_cases hn : n = 0
  · rw [hm, hn]
  · exfalso
    simp only [decimalStr, if_pos hm] at h
    exact hn (decimalStr_eq_zero_str n (by rw [decimalStr]; exact h.symm))
  · exfalso
    simp only [decimalStr, if_pos hn] at h
    exact hm (decimalStr_eq_zero_str m (by rw [decimalStr]; exact h))
  · simp only [decimalStr, if_neg hm, if_neg hn] at h
    have hlists := List.asString_inj.mp h
    have hdigits : Nat.digits 10 m = Nat.digits 10 n := by
      rw [← List.reverse_inj]
      refine map_digitChar_inj _ _ ?_ ?_ hlists
      · intro x hx
        exact Nat.digits_lt_base (by norm_num) (List.mem_reverse.mp hx)
      · intro x hx
        exact Nat.digits_lt_base (by norm_num) (List.mem_reverse.mp hx)
    have := congrArg (Nat.ofDigits 10) hdigits
    rwa [Nat.ofDigits_digits, Nat.ofDigits_digits] at this

theorem autoToastKey_inj (m n : Nat) (h : autoToastKey m = autoToastKey n) : m = n := by
  apply decimalStr_inj
  have hdata := congrArg String.data h
  simp only [autoToastKey, String.data_append] at hdata
  have := List.append_cancel_left hdata
  exact String.toList_inj.mp this

/-- Mapping a function that fixes every element of a list is the identity. -/
theorem map_eq_self_of_eq {α : Type} (f : α → α) :
    ∀ l : List α, (∀ u ∈ l, f u = u) → l.map f = l
  | [], _ => rfl
  | a :: t, h => by
    rw [List.map_cons, h a (List.mem_cons_self a t),
      map_eq_self_of_eq f t (fun u hu => h u (List.mem_cons_of_mem a hu))]

/-- Claim C6: `validateProps` accepts a configuration exactly when the
configured maximum is undefined or at least 1; a defined maximum below 1 is
rejected with a synchronous error at construction (the base class runs
`validateProps` in the constructor). -/
theorem validateProps_ok_iff (cfg : OverlayToasterProps) :
    validateProps cfg = Except.ok () ↔ ∀ m : Int, cfg.maxToasts = some m → 1 ≤ m := by
  match hc : cfg.maxToasts with
  | none => simp [validateProps, hc]
  | some m =>
    by_cases hm : m < 1
    · simp only [validateProps, hc, if_pos hm]
      constructor
      · intro h; exact absurd h (by simp)
      · intro h; exact absurd (h m rfl) (by omega)
    · simp only [validateProps, hc, if_neg hm]
      constructor
      · intro _ m' hm'
        injection hm' with hm'
        omega
      · intro _; trivial

/-- Claim C9: dismissing a key that no queued toast carries leaves the state
unchanged and invokes no callback. -/
theorem dismiss_absent_key (k : String) (te : Bool) (s : OverlayToasterState)
    (h : ∀ t ∈ s.toasts, t.key ≠ k) : dismiss k te s = s := by
  have h1 : s.toasts.filter (fun t => !(t.key == k)) = s.toasts := by
    rw [List.filter_eq_self]
    intro t ht
    simpa using h t ht
  have h2 : s.toasts.filter (fun t => t.key == k) = [] := by
    rw [List.filter_eq_nil_iff]
    intro t ht
    simpa using h t ht
  simp [dismiss, h1, h2]

/-- Witness for claim C9 at a concrete state without the key. -/
theorem dismiss_absent_key_witness :
    (∀ t ∈ (⟨[⟨"a", true, 0⟩], 1, []⟩ : OverlayToasterState).toasts, t.key ≠ "b") ∧
      dismiss "b" true ⟨[⟨"a", true, 0⟩], 1, []⟩ = ⟨[⟨"a", true, 0⟩], 1, []⟩ :=
  ⟨by decide, dismiss_absent_key "b" true ⟨[⟨"a", true, 0⟩], 1, []⟩ (by decide)⟩

/-- Claim C5: dismissing a key carried by exactly one queued toast invokes
that toast's callback exactly once, with exactly the given `timeoutExpired`
value, and removes exactly that toast from the list. -/
theorem dismiss_present_key (k : String) (te : Bool) (s : OverlayToasterState)
    (l1 l2 : List ToastOptions) (t : ToastOptions)
    (hdec : s.toasts = l1 ++ t :: l2) (hkey : t.key = k)
    (h1 : ∀ u ∈ l1, u.key ≠ k) (h2 : ∀ u ∈ l2, u.key ≠ k)
    (hcb : t.onDismiss = true) :
    (dismiss k te s).toasts = l1 ++ l2 ∧
      (dismiss k te s).dismissLog = s.dismissLog ++ [(k, te)] := by
  have hkeep1 : l1.filter (fun u => !(u.key == k)) = l1 := by
    rw [List.filter_eq_self]
    intro u hu
    simpa using h1 u hu
  have hkeep2 : l2.filter (fun u => !(u.key == k)) = l2 := by
    rw [List.filter_eq_self]
    intro u hu
    simpa using h2 u hu
  have hmatch1 : l1.filter (fun u => u.key == k) = [] := by
    rw [List.filter_eq_nil_iff]
    intro u hu
    simpa using h1 u hu
  have hmatch2 : l2.filter (fun u => u.key == k) = [] := by
    rw [List.filter_eq_nil_iff]
    intro u hu
    simpa using h2 u hu
  have htk : (t.key == k) = true := by simp [hkey]
  constructor
  · simp only [dismiss, hdec, List.filter_append, hkeep1, List.filter_cons, htk,
      Bool.not_true, hkeep2]
    simp
  · simp only [dismiss, hdec, List.filter_append, hmatch1, List.filter_cons, htk,
      hmatch2, List.nil_append, List.filterMap_cons, hcb, if_pos, List.filterMap_nil,
      hkey]
    simp [hcb, hkey]

/-- Witness for claim C5 at a concrete two-toast state. -/
theorem dismiss_present_key_witness :
    ((⟨[⟨"a", false, 0⟩, ⟨"b", true, 1⟩], 2, []⟩ : OverlayToasterState).toasts =
        [⟨"a", false, 0⟩] ++ ⟨"b", true, 1⟩ :: [] ∧
      (⟨"b", true, 1⟩ : ToastOptions).key = "b") ∧
      ((dismiss "b" true ⟨[⟨"a", false, 0⟩, ⟨"b", true, 1⟩], 2, []⟩).toasts =
          [⟨"a", false, 0⟩] ++ [] ∧
        (dismiss "b" true ⟨[⟨"a", false, 0⟩, ⟨"b", true, 1⟩], 2, []⟩).dismissLog =
          [] ++ [("b", true)]) :=
  ⟨⟨rfl, rfl⟩,
    dismiss_present_key "b" true ⟨[⟨"a", false, 0⟩, ⟨"b", true, 1⟩], 2, []⟩
      [⟨"a", false, 0⟩] [] ⟨"b", true, 1⟩ rfl rfl (by decide) (by decide) rfl⟩

/-- Claim C10: when the toast list is strictly below the configured maximum
and `show` is called with a key already carried by exactly one queued toast,
that entry is replaced in place: same position, same length, and every other
entry unchanged. -/
theorem show_replaces_in_place (cfg : OverlayToasterProps) (N : Int) (p : ToastProps)
    (k : String) (s : OverlayToasterState) (l1 l2 : List ToastOptions) (t : ToastOptions)
    (hmax : cfg.maxToasts = some N) (hlen : (s.toasts.length : Int) < N)
    (hdec : s.toasts = l1 ++ t :: l2) (hkey : t.key = k)
    (h1 : ∀ u ∈ l1, u.key ≠ k) (h2 : ∀ u ∈ l2, u.key ≠ k) :
    showToast cfg p (some k) s =
      { s with toasts := l1 ++ createToastOptions p k :: l2 } := by
  have htruthy : truthyMaxToasts cfg.maxToasts = true := by
    rw [hmax]
    simp only [truthyMaxToasts, bne_iff_ne, ne_eq, decide_eq_true_eq]
    omega
  have hcond : ¬ (some ((s.toasts.length : Int)) = cfg.maxToasts) := by
    rw [hmax]
    intro hc
    injection hc with hc
    omega
  have hAtLimit : dismissIfAtLimit cfg s = s := by
    simp only [dismissIfAtLimit, if_neg hcond]
  have ht_mem : t ∈ s.toasts := by
    rw [hdec]
    exact List.mem_append.mpr (Or.inr (List.mem_cons_self t l2))
  have hnew : isNewToastKey k s = false := by
    rw [isNewToastKey]
    cases hall : s.toasts.all (fun u => u.key != k)
    · rfl
    · exfalso
      have := List.all_eq_true.mp hall t ht_mem
      simp [hkey] at this
  have hmap : s.toasts.map (fun u => if u.key == k then createToastOptions p k else u) =
      l1 ++ createToastOptions p k :: l2 := by
    rw [hdec, List.map_append, List.map_cons]
    have e1 : l1.map (fun u => if u.key == k then createToastOptions p k else u) = l1 := by
      apply map_eq_self_of_eq
      intro u hu
      rw [if_neg]
      simpa using h1 u hu
    have e2 : l2.map (fun u => if u.key == k then createToastOptions p k else u) = l2 := by
      apply map_eq_self_of_eq
      intro u hu
      rw [if_neg]
      simpa using h2 u hu
    rw [e1, e2, if_pos (by simp [hkey])]
  simp only [showToast, htruthy, if_true, hAtLimit, Option.isNone_some, Bool.false_eq_true,
    if_false, Option.getD_some, Bool.false_or, hnew, hmap]

/-- Witness for claim C10 at a concrete two-toast state below the limit. -/
theorem show_replaces_in_place_witness :
    ((3 : Int) > ((⟨[⟨"a", false, 0⟩, ⟨"b", true, 1⟩], 2, []⟩ :
        OverlayToasterState).toasts.length : Int) ∧
      (⟨"a", false, 0⟩ : ToastOptions).key = "a") ∧
      showToast ⟨some 3⟩ ⟨true, 9⟩ (some "a")
          ⟨[⟨"a", false, 0⟩, ⟨"b", true, 1⟩], 2, []⟩ =
        ⟨[] ++ createToastOptions ⟨true, 9⟩ "a" :: [⟨"b", true, 1⟩], 2, []⟩ :=
  ⟨⟨by decide, rfl⟩,
    show_replaces_in_place ⟨some 3⟩ 3 ⟨true, 9⟩ "a"
      ⟨[⟨"a", false, 0⟩, ⟨"b", true, 1⟩], 2, []⟩ [] [⟨"b", true, 1⟩] ⟨"a", false, 0⟩
      rfl (by decide) rfl rfl (by decide) (by decide)⟩

/-- Claim C4: with maximum 2, showing three toasts with pairwise distinct
keys leaves the list `[C, B]` (newest first) and invokes A's `onDismiss`
callback with `timeoutExpired = false`. -/
theorem show_three_evicts_first (kA kB kC : String) (dA dB dC : Nat) (bB bC : Bool)
    (hAB : kA ≠ kB) (_hAC : kA ≠ kC) (hBC : kB ≠ kC) :
    (runToasterOps ⟨some 2⟩ initialToasterState
        [.showCall ⟨true, dA⟩ (some kA), .showCall ⟨bB, dB⟩ (some kB),
          .showCall ⟨bC, dC⟩ (some kC)]).toasts =
        [⟨kC, bC, dC⟩, ⟨kB, bB, dB⟩] ∧
      (runToasterOps ⟨some 2⟩ initialToasterState
        [.showCall ⟨true, dA⟩ (some kA), .showCall ⟨bB, dB⟩ (some kB),
          .showCall ⟨bC, dC⟩ (some kC)]).dismissLog = [(kA, false)] := by
  have h1 : showToast ⟨some 2⟩ ⟨true, dA⟩ (some kA) initialToasterState =
      ⟨[⟨kA, true, dA⟩], 0, []⟩ := by
    simp [showToast, dismissIfAtLimit, truthyMaxToasts, isNewToastKey,
      createToastOptions, initialToasterState]
  have h2 : showToast ⟨some 2⟩ ⟨bB, dB⟩ (some kB) ⟨[⟨kA, true, dA⟩], 0, []⟩ =
      ⟨[⟨kB, bB, dB⟩, ⟨kA, true, dA⟩], 0, []⟩ := by
    simp [showToast, dismissIfAtLimit, truthyMaxToasts, isNewToastKey,
      createToastOptions, hAB]
  have h3 : showToast ⟨some 2⟩ ⟨bC, dC⟩ (some kC)
      ⟨[⟨kB, bB, dB⟩, ⟨kA, true, dA⟩], 0, []⟩ =
      ⟨[⟨kC, bC, dC⟩, ⟨kB, bB, dB⟩], 0, [(kA, false)]⟩ := by
    have hdismiss : dismiss kA false
        (⟨[⟨kB, bB, dB⟩, ⟨kA, true, dA⟩], 0, []⟩ : OverlayToasterState) =
        ⟨[⟨kB, bB, dB⟩], 0, [(kA, false)]⟩ := by
      simp [dismiss, hAB.symm]
    simp [showToast, dismissIfAtLimit, truthyMaxToasts, isNewToastKey,
      createToastOptions, hdismiss, hAB.symm, hBC]
  have hrun : runToasterOps ⟨some 2⟩ initialToasterState
      [.showCall ⟨true, dA⟩ (some kA), .showCall ⟨bB, dB⟩ (some kB),
        .showCall ⟨bC, dC⟩ (some kC)] =
      showToast ⟨some 2⟩ ⟨bC, dC⟩ (some kC)
        (showToast ⟨some 2⟩ ⟨bB, dB⟩ (some kB)
          (showToast ⟨some 2⟩ ⟨true, dA⟩ (some kA) initialToasterState)) := rfl
  rw [hrun, h1, h2, h3]
  exact ⟨rfl, rfl⟩

/-- Witness for claim C4 at concrete distinct keys. -/
theorem show_three_evicts_first_witness :
    (("a" : String) ≠ "b" ∧ ("a" : String) ≠ "c" ∧ ("b" : String) ≠ "c") ∧
      ((runToasterOps ⟨some 2⟩ initialToasterState
          [.showCall ⟨true, 0⟩ (some "a"), .showCall ⟨true, 1⟩ (some "b"),
            .showCall ⟨true, 2⟩ (some "c")]).toasts =
          [⟨"c", true, 2⟩, ⟨"b", true, 1⟩] ∧
        (runToasterOps ⟨some 2⟩ initialToasterState
          [.showCall ⟨true, 0⟩ (some "a"), .showCall ⟨true, 1⟩ (some "b"),
            .showCall ⟨true, 2⟩ (some "c")]).dismissLog = [("a", false)]) :=
  ⟨⟨by decide, by decide, by decide⟩,
    show_three_evicts_first "a" "b" "c" 0 1 2 true true
      (by decide) (by decide) (by decide)⟩

/-- Replacing the toast carrying a key by a toast with the same key leaves
the key list unchanged. -/
theorem keys_map_replace (k : String) (opts : ToastOptions) (hk : opts.key = k) :
    ∀ l : List ToastOptions,
      (l.map (fun t => if t.key == k then opts else t)).map ToastOptions.key =
        l.map ToastOptions.key
  | [] => rfl
  | t :: r => by
    rw [List.map_cons, List.map_cons, List.map_cons]
    congr 1
    · by_cases h : (t.key == k) = true
      · rw [if_pos h, hk]
        exact (eq_of_beq h).symm
      · rw [if_neg h]
    · exact keys_map_replace k opts hk r

/-- Uniqueness invariant of the toaster state: queued keys are distinct and
every auto key the counter can still produce is absent from the list. -/
def ToasterKeyInv (s : OverlayToasterState) : Prop :=
  (s.toasts.map ToastOptions.key).Nodup ∧
    ∀ n : Nat, s.toastId ≤ n → autoToastKey n ∉ s.toasts.map ToastOptions.key

theorem toasterKeyInv_initial : ToasterKeyInv initialToasterState := by
  constructor <;> simp [initialToasterState]

theorem dismiss_keyInv (k : String) (te : Bool) (s : OverlayToasterState)
    (h : ToasterKeyInv s) : ToasterKeyInv (dismiss k te s) := by
  obtain ⟨hnd, hauto⟩ := h
  have hsub : List.Sublist ((dismiss k te s).toasts.map ToastOptions.key)
      (s.toasts.map ToastOptions.key) :=
    (List.filter_sublist s.toasts).map ToastOptions.key
  refine ⟨hsub.nodup hnd, ?_⟩
  intro n hn hmem
  exact hauto n hn (hsub.subset hmem)

theorem clear_keyInv (s : OverlayToasterState) (_h : ToasterKeyInv s) :
    ToasterKeyInv (clear s) := by
  constructor <;> simp [clear]

theorem dismissIfAtLimit_keyInv (cfg : OverlayToasterProps) (s : OverlayToasterState)
    (h : ToasterKeyInv s) : ToasterKeyInv (dismissIfAtLimit cfg s) := by
  unfold dismissIfAtLimit
  split
  · cases hg : s.toasts.getLast? with
    | none => simp only [hg]; exact h
    | some t => simp only [hg]; exact dismiss_keyInv t.key false s h
  · exact h

theorem dismissIfAtLimit_toastId (cfg : OverlayToasterProps) (s : OverlayToasterState) :
    (dismissIfAtLimit cfg s).toastId = s.toastId := by
  unfold dismissIfAtLimit
  split
  · cases hg : s.toasts.getLast? with
    | none => simp only [hg]
    | some t => simp only [hg]; rfl
  · rfl

/-- Normal form of `show` with an explicit key. -/
theorem showToast_some_eq (cfg : OverlayToasterProps) (p : ToastProps) (k : String)
    (s : OverlayToasterState) :
    showToast cfg p (some k) s =
      (fun s1 =>
        { s1 with toasts :=
            if isNewToastKey k s1 then createToastOptions p k :: s1.toasts
            else s1.toasts.map (fun t => if t.key == k then createToastOptions p k else t) })
        (if truthyMaxToasts cfg.maxToasts then dismissIfAtLimit cfg s else s) := by
  simp [showToast]

/-- Normal form of `show` without a key: the auto key is used and the
counter advances. -/
theorem showToast_none_eq (cfg : OverlayToasterProps) (p : ToastProps)
    (s : OverlayToasterState) :
    showToast cfg p none s =
      (fun s1 =>
        { s1 with toastId := s1.toastId + 1,
                  toasts := createToastOptions p (autoToastKey s1.toastId) :: s1.toasts })
        (if truthyMaxToasts cfg.maxToasts then dismissIfAtLimit cfg s else s) := by
  simp [showToast]

theorem showToast_keyInv (cfg : OverlayToasterProps) (p : ToastProps) (k? : Option String)
    (s : OverlayToasterState)
    (hvalid : ∀ k, k? = some k → ∀ n : Nat, k ≠ autoToastKey n)
    (h : ToasterKeyInv s) : ToasterKeyInv (showToast cfg p k? s) := by
  have h1 : ToasterKeyInv
      (if truthyMaxToasts cfg.maxToasts then dismissIfAtLimit cfg s else s) := by
    split
    · exact dismissIfAtLimit_keyInv cfg s h
    · exact h
  set s1 := if truthyMaxToasts cfg.maxToasts then dismissIfAtLimit cfg s else s with hs1
  obtain ⟨hnd1, hauto1⟩ := h1
  match k? with
  | some k =>
    have hk : ∀ n : Nat, k ≠ autoToastKey n := hvalid k rfl
    rw [showToast_some_eq, ← hs1]
    by_cases hnew : isNewToastKey k s1
    · simp only [if_pos hnew]
      constructor
      · simp only [List.map_cons, createToastOptions]
        rw [List.nodup_cons]
        refine ⟨?_, hnd1⟩
        intro hmem
        obtain ⟨t, ht, htk⟩ := List.mem_map.mp hmem
        have := List.all_eq_true.mp hnew t ht
        simp [htk] at this
      · intro n hn
        simp only [List.map_cons, createToastOptions, List.mem_cons]
        rintro (heq | hmem)
        · exact hk n heq.symm
        · exact hauto1 n hn hmem
    · simp only [if_neg hnew]
      have hkeys := keys_map_replace k (createToastOptions p k) rfl s1.toasts
      constructor
      · rw [hkeys]
        exact hnd1
      · intro n hn
        rw [hkeys]
        exact hauto1 n hn
  | none =>
    rw [showToast_none_eq, ← hs1]
    constructor
    · simp only [List.map_cons, createToastOptions]
      rw [List.nodup_cons]
      exact ⟨hauto1 s1.toastId le_rfl, hnd1⟩
    · intro n hn hmem
      simp only [List.map_cons, createToastOptions, List.mem_cons] at hmem
      rcases hmem with heq | hmem
      · have := autoToastKey_inj n s1.toastId heq
        simp only at hn
        omega
      · refine hauto1 n ?_ hmem
        simp only at hn
        omega

/-- Traces of the toaster API in which every explicitly passed key avoids
the auto-generated `toast-N` key space. -/
def toasterKeysOK : List ToasterOp → Prop
  | [] => True
  | ToasterOp.showCall _ (some k) :: rest =>
      (∀ n : Nat, k ≠ autoToastKey n) ∧ toasterKeysOK rest
  | ToasterOp.showCall _ none :: rest => toasterKeysOK rest
  | ToasterOp.dismissCall _ _ :: rest => toasterKeysOK rest
  | ToasterOp.clearCall :: rest => toasterKeysOK rest

theorem toasterKeyInv_run (cfg : OverlayToasterProps) (ops : List ToasterOp) :
    ∀ s : OverlayToasterState, ToasterKeyInv s → toasterKeysOK ops →
      ToasterKeyInv (runToasterOps cfg s ops) := by
  induction ops with
  | nil => intro s h _; exact h
  | cons op rest ih =>
    intro s h hops
    match op with
    | .showCall p (some k) =>
      obtain ⟨hk, hrest⟩ := hops
      refine ih (showToast cfg p (some k) s) ?_ hrest
      refine showToast_keyInv cfg p (some k) s ?_ h
      intro k' hk' n
      injection hk' with hk'
      rw [← hk']
      exact hk n
    | .showCall p none =>
      refine ih (showToast cfg p none s) ?_ hops
      exact showToast_keyInv cfg p none s (fun k' hk' => by simp at hk') h
    | .dismissCall k te => exact ih (dismiss k te s) (dismiss_keyInv k te s h) hops
    | .clearCall => exact ih (clear s) (clear_keyInv s h) hops

/-- Claim C2, counterexample: two `openOverlay` calls with the same overlay
instance leave two entries with the same id on the stack, so the claimed
invariant fails for this call sequence. -/
theorem duplicate_id_counterexample :
    ¬ ((runOverlayOps initialOverlayState
        [.openOv backdropOverlay, .openOv backdropOverlay]).stack.map
          OverlayInstance.id).Nodup := by
  decide

/-- Claim C2 (amended): starting from the empty states, the overlay stack
never contains two entries with the same id provided every `openOverlay`
call pushes an id not currently on the stack, and the toast list never
contains two entries with the same key provided every explicitly passed
`show` key avoids the auto-generated `toast-N` key space (`openOverlay`
performs no duplicate check, and an explicit key equal to a future auto key
is duplicated by a later auto-keyed `show`). -/
theorem no_duplicate_ids_or_keys :
    (∀ ops : List OverlayOp, overlayOpsFresh initialOverlayState ops →
        ((runOverlayOps initialOverlayState ops).stack.map OverlayInstance.id).Nodup) ∧
      ∀ (cfg : OverlayToasterProps) (ops : List ToasterOp), toasterKeysOK ops →
        ((runToasterOps cfg initialToasterState ops).toasts.map ToastOptions.key).Nodup := by
  constructor
  · intro ops hops
    exact overlayNodup_run ops initialOverlayState (by simp [initialOverlayState]) hops
  · intro cfg ops hops
    exact (toasterKeyInv_run cfg ops initialToasterState toasterKeyInv_initial hops).1

/-- Witness for the amended claim C2 at concrete call sequences. -/
theorem no_duplicate_ids_or_keys_witness :
    (overlayOpsFresh initialOverlayState [.openOv backdropOverlay, .reset] ∧
        ((runOverlayOps initialOverlayState
          [.openOv backdropOverlay, .reset]).stack.map OverlayInstance.id).Nodup) ∧
      toasterKeysOK [.showCall ⟨true, 0⟩ none, .dismissCall "toast-0" false] ∧
        ((runToasterOps ⟨some 5⟩ initialToasterState
          [.showCall ⟨true, 0⟩ none, .dismissCall "toast-0" false]).toasts.map
            ToastOptions.key).Nodup := by
  have ho : overlayOpsFresh initialOverlayState [.openOv backdropOverlay, .reset] := by
    simp [overlayOpsFresh, initialOverlayState]
  have ht : toasterKeysOK [.showCall ⟨true, 0⟩ none, .dismissCall "toast-0" false] := by
    simp [toasterKeysOK]
  exact ⟨⟨ho, no_duplicate_ids_or_keys.1 _ ho⟩,
    ht, no_duplicate_ids_or_keys.2 ⟨some 5⟩ _ ht⟩

end Blueprint
